import Mathlib

/-!
Verification of the dholecrypto asymmetric protocol layer.

The repository sources available here are the test suite and the package
index; the implementation files under lib/ are not present.  Following the
specification, the protocol layer is modelled over an abstract primitive
library (elliptic-curve key agreement, AEAD, hash/KDF, signatures), bundled
with the contract the specification assigns to that collaborator.  Byte
strings are idealized as lists of natural numbers; all length invariants
from the data model are kept.
-/

/-- Byte strings, idealized: each entry is an unbounded natural number. -/
abbrev Bytes := List Nat

/-- Modelled from the spec: the failure taxonomy of the protocol layer
(size-mismatch on key construction, degenerate key exchange, AEAD tag
mismatch, header version mismatch, malformed signature length). -/
inductive CryptoError where
  | InvalidKeyLength
  | KeyExchangeError
  | AuthenticationError
  | UnsupportedVersionError
  | SignatureLengthError
  deriving DecidableEq

/-- Lexicographic comparison of byte strings, used by the key exchange to
put the two public keys in canonical order. -/
def lexLt : Bytes → Bytes → Bool
  | [], [] => false
  | [], _ :: _ => true
  | _ :: _, [] => false
  | a :: as, b :: bs => if a < b then true else if b < a then false else lexLt as bs

/-- A byte string is degenerate when every byte is zero. -/
def allZero (l : Bytes) : Bool := l.all (fun b => b == 0)

/-- Flip bit k of the byte at position i (identity when i is out of range). -/
def flipBit : Bytes → Nat → Nat → Bytes
  | [], _, _ => []
  | b :: bs, 0, k => (b ^^^ 2 ^ k) :: bs
  | b :: bs, i + 1, k => b :: flipBit bs i k

/-- Modelled from the spec: a 32-byte opaque scalar owned by its holder. -/
structure AsymmetricSecretKey where
  bytes : Bytes
  len : bytes.length = 32

/-- Modelled from the spec: a 32-byte curve point. -/
structure AsymmetricPublicKey where
  bytes : Bytes
  len : bytes.length = 32

/-- Modelled from the spec: a 32-byte AEAD key. -/
structure SymmetricKey where
  bytes : Bytes
  len : bytes.length = 32

/-- Modelled from the spec: a fixed-size 64-byte detached signature. -/
structure Signature where
  bytes : Bytes
  len : bytes.length = 64

/-- Modelled from the spec: construction of a secret key from raw bytes
validates the length and fails with a size-mismatch error otherwise; no
other validation is performed. -/
def AsymmetricSecretKey.mk? (b : Bytes) : Except CryptoError AsymmetricSecretKey :=
  if h : b.length = 32 then .ok ⟨b, h⟩ else .error .InvalidKeyLength

/-- Modelled from the spec: construction of a public key from raw bytes
validates the length only. -/
def AsymmetricPublicKey.mk? (b : Bytes) : Except CryptoError AsymmetricPublicKey :=
  if h : b.length = 32 then .ok ⟨b, h⟩ else .error .InvalidKeyLength

/-- Modelled from the spec: construction of a symmetric key from raw bytes
validates the length only. -/
def SymmetricKey.mk? (b : Bytes) : Except CryptoError SymmetricKey :=
  if h : b.length = 32 then .ok ⟨b, h⟩ else .error .InvalidKeyLength

/-- Modelled from the spec: a malformed signature length is a
construction-time error, distinct from a verification-time false. -/
def Signature.mk? (b : Bytes) : Except CryptoError Signature :=
  if h : b.length = 64 then .ok ⟨b, h⟩ else .error .SignatureLengthError

/-- Modelled from the spec: the out-of-scope primitive library collaborator
(scalarMultBase, ecdh, kdf, aeadEncrypt/aeadDecrypt, sign/verify), bundled
with the contract the specification assigns to it: output lengths, the
Diffie-Hellman symmetry of ecdh on derived public keys, AEAD decryption
succeeding exactly on authentic (ciphertext, tag) pairs, and verification
accepting honestly produced signatures. -/
structure Primitives where
  scalarMultBase : Bytes → Bytes
  ecdh : Bytes → Bytes → Bytes
  kdf : Bytes → Bytes
  aeadEncrypt : Bytes → Bytes → Bytes → Bytes → Bytes × Bytes
  aeadDecrypt : Bytes → Bytes → Bytes → Bytes → Bytes → Option Bytes
  signPrim : Bytes → Bytes → Bytes
  verifyPrim : Bytes → Bytes → Bytes → Bool
  smb_len : ∀ sk, (scalarMultBase sk).length = 32
  kdf_len : ∀ x, (kdf x).length = 32
  sign_len : ∀ sk h, (signPrim sk h).length = 64
  ecdh_symm : ∀ a b, ecdh a (scalarMultBase b) = ecdh b (scalarMultBase a)
  aead_sound : ∀ k n a ct tg m, aeadDecrypt k n a ct tg = some m ↔ aeadEncrypt k n a m = (ct, tg)
  verify_sign : ∀ sk h, verifyPrim (scalarMultBase sk) h (signPrim sk h) = true

/-- Modelled from the spec: the public key is a deterministic pure function
of the secret, via scalar multiplication with the base point. -/
def AsymmetricSecretKey.getPublicKey (sk : AsymmetricSecretKey) (P : Primitives) : AsymmetricPublicKey :=
  ⟨P.scalarMultBase sk.bytes, P.smb_len sk.bytes⟩

/-- Modelled from the spec: the fixed magic and version bytes framing an
encrypted message. -/
def HEADER : Bytes := [100, 104, 1]

/-- Modelled from the spec: fixed domain-separation bytes for signatures. -/
def SIG_DOM : Bytes := [68, 83, 105, 103]

/-- Modelled from the spec: domain-separation bytes for the deterministic
seal nonce derivation. -/
def SEAL_DOM : Bytes := [68, 78, 111, 110]

/-- Modelled from the spec, section 4.2: compute the raw shared point via
ecdh, reject a degenerate (all-zero) result with a KeyExchangeError, then
derive the output key by hashing, in canonical order, the shared point, the
lexicographically ordered pair of the two public keys, and a single
direction byte equal to the server flag XORed with which public key is
numerically first.  Wrong key lengths are impossible here because the key
types carry the length invariant. -/
def Asymmetric.keyExchange (P : Primitives) (sk : AsymmetricSecretKey)
    (pk : AsymmetricPublicKey) (serverFlag : Bool) : Except CryptoError SymmetricKey :=
  let shared := P.ecdh sk.bytes pk.bytes
  if allZero shared then .error .KeyExchangeError
  else
    let own := P.scalarMultBase sk.bytes
    let first := lexLt own pk.bytes
    let lo := if first then own else pk.bytes
    let hi := if first then pk.bytes else own
    let dir : Nat := if Bool.xor serverFlag first then 1 else 0
    .ok ⟨P.kdf (shared ++ lo ++ hi ++ [dir]), P.kdf_len _⟩

/-- Modelled from the spec: header, nonce, ciphertext and tag of an
authenticated-channel message. -/
structure EncryptedMessage where
  header : Bytes
  nonce : Bytes
  ct : Bytes
  tag : Bytes
  deriving DecidableEq

/-- Modelled from the spec: ephemeral public key, nonce, ciphertext and tag
of a sealed message. -/
structure SealedMessage where
  epk : Bytes
  nonce : Bytes
  ct : Bytes
  tag : Bytes
  deriving DecidableEq

/-- Modelled from the spec, section 4.3: derive a per-message key by running
the key exchange in the outbound direction, AEAD-encrypt under a fresh
nonce (passed explicitly as the randomness input) with the header as
associated data, and emit header, nonce, ciphertext and tag.  The argument
order (message, recipient public key, sender secret key) follows the call
convention of the test suite. -/
def Asymmetric.encrypt (P : Primitives) (nonce : Bytes) (m : Bytes)
    (pk : AsymmetricPublicKey) (sk : AsymmetricSecretKey) : Except CryptoError EncryptedMessage :=
  match Asymmetric.keyExchange P sk pk true with
  | .error e => .error e
  | .ok key =>
    let et := P.aeadEncrypt key.bytes nonce HEADER m
    .ok ⟨HEADER, nonce, et.1, et.2⟩

/-- Modelled from the spec, section 4.3: fail fast with an
UnsupportedVersionError on a header mismatch, re-derive the symmetric key in
the inbound direction, AEAD-decrypt, and fail with a single generic
AuthenticationError on tag mismatch. -/
def Asymmetric.decrypt (P : Primitives) (c : EncryptedMessage)
    (sk : AsymmetricSecretKey) (pk : AsymmetricPublicKey) : Except CryptoError Bytes :=
  if c.header ≠ HEADER then .error .UnsupportedVersionError
  else
    match Asymmetric.keyExchange P sk pk false with
    | .error e => .error e
    | .ok key =>
      match P.aeadDecrypt key.bytes c.nonce HEADER c.ct c.tag with
      | some m => .ok m
      | none => .error .AuthenticationError

/-- Modelled from the spec, section 4.4: run the key exchange between the
ephemeral secret (passed explicitly as the randomness input) and the
recipient public key with the sender direction fixed, derive the nonce
deterministically from the two public keys, AEAD-encrypt, and emit the
ephemeral public key, nonce, ciphertext and tag. -/
def Asymmetric.seal (P : Primitives) (esk : AsymmetricSecretKey) (m : Bytes)
    (pk : AsymmetricPublicKey) : Except CryptoError SealedMessage :=
  let epk := esk.getPublicKey P
  match Asymmetric.keyExchange P esk pk true with
  | .error e => .error e
  | .ok key =>
    let nonce := P.kdf (SEAL_DOM ++ epk.bytes ++ pk.bytes)
    let et := P.aeadEncrypt key.bytes nonce [] m
    .ok ⟨epk.bytes, nonce, et.1, et.2⟩

/-- Modelled from the spec, section 4.4: extract the embedded ephemeral
public key, re-derive the symmetric key with the recipient secret, and
AEAD-decrypt, failing like decrypt on tag mismatch. -/
def Asymmetric.unseal (P : Primitives) (c : SealedMessage)
    (sk : AsymmetricSecretKey) : Except CryptoError Bytes :=
  match AsymmetricPublicKey.mk? c.epk with
  | .error e => .error e
  | .ok epk =>
    match Asymmetric.keyExchange P sk epk false with
    | .error e => .error e
    | .ok key =>
      match P.aeadDecrypt key.bytes c.nonce [] c.ct c.tag with
      | some m => .ok m
      | none => .error .AuthenticationError

/-- Modelled from the spec, section 4.5: a deterministic detached signature
over the domain-separated pre-hash of the message. -/
def Asymmetric.sign (P : Primitives) (m : Bytes) (sk : AsymmetricSecretKey) : Signature :=
  ⟨P.signPrim sk.bytes (P.kdf (SIG_DOM ++ m)), P.sign_len _ _⟩

/-- Transport encoding of a single idealized byte: its little-endian decimal
digits followed by a separator. -/
def encByte (n : Nat) : Bytes := Nat.digits 10 n ++ [10]

/-- Transport encoding of a byte string (thin serialization wrapper). -/
def sigEncode : Bytes → Bytes
  | [] => []
  | b :: bs => encByte b ++ sigEncode bs

/-- Transport decoding helper: accumulate digits until a separator. -/
def sigDecodeAux : Bytes → Bytes → Bytes
  | [], _ => []
  | c :: rest, acc =>
    if c = 10 then Nat.ofDigits 10 acc :: sigDecodeAux rest []
    else sigDecodeAux rest (acc ++ [c])

/-- Transport decoding of a byte string. -/
def sigDecode (s : Bytes) : Bytes := sigDecodeAux s []

/-- Modelled from the spec, section 4.5, and the test suite: verification
accepts the signature either as a Signature value or in its transport
string form (decoded and then put through the length-validating
constructor); it recomputes the domain-separated pre-hash and returns a
boolean, with a mismatched signature an ordinary false rather than a
failure. -/
def Asymmetric.verify (P : Primitives) (m : Bytes) (pk : AsymmetricPublicKey)
    (s : Sum Signature Bytes) : Except CryptoError Bool :=
  match s with
  | .inl sig => .ok (P.verifyPrim pk.bytes (P.kdf (SIG_DOM ++ m)) sig.bytes)
  | .inr str =>
    match Signature.mk? (sigDecode str) with
    | .error e => .error e
    | .ok sig => .ok (P.verifyPrim pk.bytes (P.kdf (SIG_DOM ++ m)) sig.bytes)

/-- Sum of the bytes of a byte string (used by the toy primitive instance). -/
def sumL (l : Bytes) : Nat := l.foldr (fun a b => a + b) 0

/-- Pad a single idealized byte to a 32-byte string. -/
def pad32 (n : Nat) : Bytes := n :: List.replicate 31 0

/-- Toy instance of scalar multiplication with the base point: exponentiation
of a fixed generator in the multiplicative group modulo 11. -/
def toySmb (sk : Bytes) : Bytes := pad32 (2 ^ sumL sk % 11)

/-- Toy instance of the Diffie-Hellman shared point. -/
def toyEcdh (sk pk : Bytes) : Bytes := pad32 (pk.headD 0 ^ sumL sk % 11)

/-- Toy instance of the hash/KDF. -/
def toyKdf (l : Bytes) : Bytes := (l.getLastD 0 + 1) :: List.replicate 31 0

/-- Keystream mask of the toy AEAD, a function of key and nonce. -/
def toyMask (k n : Bytes) : Nat := sumL k + sumL n + 1

/-- Tag mask of the toy AEAD, a function of key and associated data. -/
def toyTagMask (k a : Bytes) : Nat := sumL k + sumL a + 1

/-- Toy AEAD encryption: XOR keystream for the ciphertext, and a tag that is
an injective function of the ciphertext for fixed key, nonce and data. -/
def toyAeadEncrypt (k n a m : Bytes) : Bytes × Bytes :=
  (m.map (fun b => b ^^^ toyMask k n),
   (m.map (fun b => b ^^^ toyMask k n)).map (fun b => b ^^^ toyTagMask k a))

/-- Toy AEAD decryption: recompute the tag and compare. -/
def toyAeadDecrypt (k n a ct tg : Bytes) : Option Bytes :=
  if tg = ct.map (fun b => b ^^^ toyTagMask k a) then
    some (ct.map (fun b => b ^^^ toyMask k n))
  else none

/-- Toy signature primitive: the derived public key followed by a digest of
the pre-hashed input. -/
def toySig (sk h : Bytes) : Bytes := toySmb sk ++ pad32 (sumL h)

/-- Toy verification primitive: recompute and compare. -/
def toyVerifySig (pk h sig : Bytes) : Bool := decide (sig = pk ++ pad32 (sumL h))

/-- The toy primitive library instance, shown to satisfy the collaborator
contract of the specification; it backs all concrete witnesses. -/
def toyPrims : Primitives where
  scalarMultBase := toySmb
  ecdh := toyEcdh
  kdf := toyKdf
  aeadEncrypt := toyAeadEncrypt
  aeadDecrypt := toyAeadDecrypt
  signPrim := toySig
  verifyPrim := toyVerifySig
  smb_len := by intro sk; simp [toySmb, pad32]
  kdf_len := by intro x; simp [toyKdf]
  sign_len := by intro sk h; simp [toySig, toySmb, pad32]
  ecdh_symm := by
    intro a b
    simp only [toyEcdh, toySmb, pad32, List.headD_cons]
    rw [← Nat.pow_mod, ← Nat.pow_mod, ← pow_mul, ← pow_mul, Nat.mul_comm]
  aead_sound := by
    intro k n a ct tg m
    simp only [toyAeadDecrypt, toyAeadEncrypt]
    by_cases h : tg = ct.map (fun b => b ^^^ toyTagMask k a)
    · simp only [if_pos h, Option.some.injEq, Prod.mk.injEq]
      constructor
      · intro hm
        subst hm
        have hinv : (ct.map (fun b => b ^^^ toyMask k n)).map (fun b => b ^^^ toyMask k n) = ct := by
          rw [List.map_map]
          have : ((fun b => b ^^^ toyMask k n) ∘ fun b => b ^^^ toyMask k n) = id := by
            funext b
            simp [Function.comp, Nat.xor_cancel_right]
          rw [this, List.map_id]
        exact ⟨hinv, by rw [hinv, h]⟩
      · rintro ⟨h1, _⟩
        rw [← h1, List.map_map]
        have : ((fun b => b ^^^ toyMask k n) ∘ fun b => b ^^^ toyMask k n) = id := by
          funext b
          simp [Function.comp, Nat.xor_cancel_right]
        rw [this, List.map_id]
    · simp only [if_neg h, Prod.mk.injEq]
      constructor
      · intro hf
        exact Option.noConfusion hf
      · rintro ⟨h1, h2⟩
        exact absurd (h2.symm.trans (by rw [h1])) h
  verify_sign := by
    intro sk h
    simp [toyVerifySig, toySig]

/-- A concrete 32-byte secret key for witnesses. -/
def kA : AsymmetricSecretKey := ⟨1 :: List.replicate 31 0, by decide⟩

/-- A second concrete 32-byte secret key for witnesses. -/
def kB : AsymmetricSecretKey := ⟨2 :: List.replicate 31 0, by decide⟩

/-- A copy of kA built from the same bytes with a different length proof. -/
def kA2 : AsymmetricSecretKey := ⟨1 :: List.replicate 31 0, by simp⟩

/-- The lexicographic comparison is asymmetric on distinct byte strings. -/
theorem lexLt_asymm : ∀ (x y : Bytes), x ≠ y → lexLt y x = !lexLt x y
  | [], [], h => absurd rfl h
  | [], _ :: _, _ => by simp [lexLt]
  | _ :: _, [], _ => by simp [lexLt]
  | a :: as, b :: bs, h => by
    rcases Nat.lt_trichotomy a b with hab | hab | hab
    · simp [lexLt, hab, Nat.lt_asymm hab]
    · subst hab
      have hne : as ≠ bs := fun hh => h (by rw [hh])
      simp only [lexLt, Nat.lt_irrefl, if_false]
      exact lexLt_asymm as bs hne
    · simp [lexLt, hab, Nat.lt_asymm hab]

/-- XOR with a power of two changes a natural number. -/
theorem xor_two_pow_ne (b k : Nat) : b ^^^ 2 ^ k ≠ b := by
  intro h
  have h2 : b ^^^ (b ^^^ 2 ^ k) = b ^^^ b := congrArg (fun x => b ^^^ x) h
  rw [← Nat.xor_assoc, Nat.xor_self, Nat.zero_xor] at h2
  exact Nat.pos_iff_ne_zero.mp (pow_pos (by decide) k) h2

/-- Flipping a bit at an in-range position changes the byte string. -/
theorem flipBit_ne : ∀ (l : Bytes) (i k : Nat), i < l.length → flipBit l i k ≠ l
  | [], _, _, h => absurd h (by simp)
  | b :: bs, 0, k, _ => by
    simp only [flipBit, ne_eq, List.cons.injEq, not_and]
    intro hh
    exact absurd hh (xor_two_pow_ne b k)
  | b :: bs, i + 1, k, h => by
    simp only [flipBit, ne_eq, List.cons.injEq, true_and]
    intro hh
    exact flipBit_ne bs i k (Nat.lt_of_succ_lt_succ (by simpa using h)) hh

/-- Key-exchange symmetry at the level of the model: with distinct derived
public keys, running the exchange from either end with complementary flags
produces the same result. -/
theorem keyExchange_symm (P : Primitives) (a b : AsymmetricSecretKey) (t : Bool)
    (hpk : P.scalarMultBase a.bytes ≠ P.scalarMultBase b.bytes) :
    Asymmetric.keyExchange P a (b.getPublicKey P) t
      = Asymmetric.keyExchange P b (a.getPublicKey P) (!t) := by
  have hflip : lexLt (P.scalarMultBase b.bytes) (P.scalarMultBase a.bytes)
      = !lexLt (P.scalarMultBase a.bytes) (P.scalarMultBase b.bytes) :=
    lexLt_asymm _ _ hpk
  cases hf : lexLt (P.scalarMultBase a.bytes) (P.scalarMultBase b.bytes) <;>
    cases t <;>
    simp [Asymmetric.keyExchange, AsymmetricSecretKey.getPublicKey,
      P.ecdh_symm a.bytes b.bytes, hflip, hf]

/-- On a non-degenerate shared point the key exchange succeeds and the
derived key is the hash of the canonical concatenation. -/
theorem keyExchange_ok (P : Primitives) (sk : AsymmetricSecretKey)
    (pk : AsymmetricPublicKey) (t : Bool)
    (h : allZero (P.ecdh sk.bytes pk.bytes) = false) :
    Asymmetric.keyExchange P sk pk t = .ok ⟨P.kdf (P.ecdh sk.bytes pk.bytes
      ++ (if lexLt (P.scalarMultBase sk.bytes) pk.bytes then P.scalarMultBase sk.bytes else pk.bytes)
      ++ (if lexLt (P.scalarMultBase sk.bytes) pk.bytes then pk.bytes else P.scalarMultBase sk.bytes)
      ++ [if Bool.xor t (lexLt (P.scalarMultBase sk.bytes) pk.bytes) then 1 else 0]),
      P.kdf_len _⟩ := by
  simp [Asymmetric.keyExchange, h]

/-- Reconstructing a public key from its own bytes succeeds and returns an
equal key. -/
theorem mkPk_roundtrip (pk : AsymmetricPublicKey) :
    AsymmetricPublicKey.mk? pk.bytes = .ok pk := by
  simp only [AsymmetricPublicKey.mk?]
  rw [dif_pos pk.len]

/-- Decoding one digit block consumes it and yields the encoded number. -/
theorem sigDecodeAux_block : ∀ (ds : Bytes), (∀ d ∈ ds, d < 10) → ∀ (rest acc : Bytes),
    sigDecodeAux (ds ++ 10 :: rest) acc = Nat.ofDigits 10 (acc ++ ds) :: sigDecodeAux rest []
  | [], _, rest, acc => by simp [sigDecodeAux]
  | d :: ds, hds, rest, acc => by
    have hd : d ≠ 10 := Nat.ne_of_lt (hds d (by simp))
    have ih := sigDecodeAux_block ds (fun x hx => hds x (by simp [hx])) rest (acc ++ [d])
    simp [sigDecodeAux, hd, ih, List.append_assoc]

/-- The transport decoding inverts the transport encoding. -/
theorem sigDecode_sigEncode : ∀ l : Bytes, sigDecode (sigEncode l) = l
  | [] => rfl
  | b :: bs => by
    have hds : ∀ d ∈ Nat.digits 10 b, d < 10 := fun d hd =>
      Nat.digits_lt_base (by decide) hd
    have h1 : sigEncode (b :: bs) = Nat.digits 10 b ++ 10 :: sigEncode bs := by
      simp [sigEncode, encByte]
    rw [sigDecode, h1, sigDecodeAux_block _ hds _ []]
    simp [Nat.ofDigits_digits]
    exact sigDecode_sigEncode bs

/-- The toy KDF separates inputs that differ in the final byte. -/
theorem toy_kdf_sep (s l h : Bytes) (x y : Nat) (hxy : x ≠ y) :
    toyKdf (s ++ l ++ h ++ [x]) ≠ toyKdf (s ++ l ++ h ++ [y]) := by
  simp [toyKdf, List.reverse_append, hxy]

/-- The toy KDF never returns the all-zero 32-byte value. -/
theorem toy_kdf_nz (x : Bytes) : toyKdf x ≠ List.replicate 32 0 := by
  intro hh
  have h2 := congrArg (fun l => l.headD 1) hh
  simp [toyKdf] at h2

/-- XOR with a fixed mask is injective on byte strings. -/
theorem xorMap_inj (c : Nat) :
    Function.Injective (fun l : Bytes => l.map (fun b => b ^^^ c)) := by
  apply List.map_injective_iff.mpr
  intro x y hxy
  have h2 := congrArg (fun z => z ^^^ c) hxy
  simpa [Nat.xor_cancel_right] using h2

/-- The toy AEAD ciphertext determines the message for a fixed key, nonce
and associated data. -/
theorem toy_ct_inj (k n a m1 m2 : Bytes)
    (h : (toyAeadEncrypt k n a m1).1 = (toyAeadEncrypt k n a m2).1) : m1 = m2 :=
  xorMap_inj (toyMask k n) h

/-- The toy AEAD tag determines the message for a fixed key, nonce and
associated data. -/
theorem toy_tag_inj (k n a m1 m2 : Bytes)
    (h : (toyAeadEncrypt k n a m1).2 = (toyAeadEncrypt k n a m2).2) : m1 = m2 :=
  xorMap_inj (toyMask k n) (xorMap_inj (toyTagMask k a) h)

/-- C1: for every message m and every pair of valid key pairs A and B (two
parties: each public key derived from its secret, distinct public keys,
non-degenerate shared point), decrypting with (B.sk, A.pk) the result of
encrypting m from A to B returns m unchanged; the sender secret is paired
with the recipient public key at encryption and the recipient secret with
the sender public key at decryption, exactly as in the specification. -/
theorem c1_encrypt_decrypt_roundtrip (P : Primitives) (nonce m : Bytes)
    (a b : AsymmetricSecretKey)
    (hpk : P.scalarMultBase a.bytes ≠ P.scalarMultBase b.bytes)
    (hnd : allZero (P.ecdh a.bytes (b.getPublicKey P).bytes) = false) :
    ∃ c, Asymmetric.encrypt P nonce m (b.getPublicKey P) a = .ok c ∧
      Asymmetric.decrypt P c b (a.getPublicKey P) = .ok m := by
  obtain ⟨key, hkey⟩ : ∃ key, Asymmetric.keyExchange P a (b.getPublicKey P) true = .ok key :=
    ⟨_, keyExchange_ok P a (b.getPublicKey P) true hnd⟩
  have hkey2 : Asymmetric.keyExchange P b (a.getPublicKey P) false = .ok key :=
    (keyExchange_symm P a b true hpk).symm.trans hkey
  refine ⟨⟨HEADER, nonce, (P.aeadEncrypt key.bytes nonce HEADER m).1,
    (P.aeadEncrypt key.bytes nonce HEADER m).2⟩, ?_, ?_⟩
  · simp [Asymmetric.encrypt, hkey]
  · have hdec : P.aeadDecrypt key.bytes nonce HEADER
        (P.aeadEncrypt key.bytes nonce HEADER m).1
        (P.aeadEncrypt key.bytes nonce HEADER m).2 = some m :=
      (P.aead_sound _ _ _ _ _ _).mpr rfl
    simp [Asymmetric.decrypt, hkey2, hdec]

/-- C1 witness: a concrete round trip under the toy primitives. -/
theorem c1_witness :
    ∃ c, Asymmetric.encrypt toyPrims [] [5] (kB.getPublicKey toyPrims) kA = .ok c ∧
      Asymmetric.decrypt toyPrims c kB (kA.getPublicKey toyPrims) = .ok [5] :=
  c1_encrypt_decrypt_roundtrip toyPrims [] [5] kA kB (by decide) (by decide)

/-- C2: for every pair of valid key pairs A and B (two parties with distinct
public keys), keyExchange(A, B.pk, true) equals keyExchange(B, A.pk, false)
and keyExchange(A, B.pk, false) equals keyExchange(B, A.pk, true); moreover,
on a non-degenerate shared point and for a KDF separating direction bytes,
the flag-true result differs from the flag-false result for the same pair. -/
theorem c2_keyExchange_symmetry (P : Primitives) (a b : AsymmetricSecretKey)
    (hpk : P.scalarMultBase a.bytes ≠ P.scalarMultBase b.bytes) :
    Asymmetric.keyExchange P a (b.getPublicKey P) true
      = Asymmetric.keyExchange P b (a.getPublicKey P) false ∧
    Asymmetric.keyExchange P a (b.getPublicKey P) false
      = Asymmetric.keyExchange P b (a.getPublicKey P) true ∧
    (allZero (P.ecdh a.bytes (b.getPublicKey P).bytes) = false →
     (∀ (s l h : Bytes) (x y : Nat), x ≠ y →
        P.kdf (s ++ l ++ h ++ [x]) ≠ P.kdf (s ++ l ++ h ++ [y])) →
     Asymmetric.keyExchange P a (b.getPublicKey P) true
       ≠ Asymmetric.keyExchange P a (b.getPublicKey P) false) := by
  refine ⟨keyExchange_symm P a b true hpk, keyExchange_symm P a b false hpk, ?_⟩
  intro hnd hsep heq
  rw [keyExchange_ok P a (b.getPublicKey P) true hnd,
    keyExchange_ok P a (b.getPublicKey P) false hnd] at heq
  injection heq with heq2
  have hb := congrArg SymmetricKey.bytes heq2
  cases hf : lexLt (P.scalarMultBase a.bytes) (b.getPublicKey P).bytes with
  | false =>
    simp only [hf] at hb
    exact hsep _ _ _ 1 0 (by decide) (by simpa using hb)
  | true =>
    simp only [hf] at hb
    exact hsep _ _ _ 0 1 (by decide) (by simpa using hb)

/-- C2 witness: concrete symmetry and directional difference under the toy
primitives. -/
theorem c2_witness :
    Asymmetric.keyExchange toyPrims kA (kB.getPublicKey toyPrims) true
      = Asymmetric.keyExchange toyPrims kB (kA.getPublicKey toyPrims) false ∧
    Asymmetric.keyExchange toyPrims kA (kB.getPublicKey toyPrims) false
      = Asymmetric.keyExchange toyPrims kB (kA.getPublicKey toyPrims) true ∧
    Asymmetric.keyExchange toyPrims kA (kB.getPublicKey toyPrims) true
      ≠ Asymmetric.keyExchange toyPrims kA (kB.getPublicKey toyPrims) false := by
  have h := c2_keyExchange_symmetry toyPrims kA kB (by decide)
  exact ⟨h.1, h.2.1, h.2.2 (by decide) toy_kdf_sep⟩

/-- C3: for every message m and valid recipient key pair R (an ephemeral
sender pair with public key distinct from the recipient public key and a
non-degenerate shared point), unsealing with R.sk the result of sealing m
to R.pk returns m unchanged. -/
theorem c3_seal_unseal_roundtrip (P : Primitives) (m : Bytes)
    (esk r : AsymmetricSecretKey)
    (hpk : P.scalarMultBase esk.bytes ≠ P.scalarMultBase r.bytes)
    (hnd : allZero (P.ecdh esk.bytes (r.getPublicKey P).bytes) = false) :
    ∃ c, Asymmetric.seal P esk m (r.getPublicKey P) = .ok c ∧
      Asymmetric.unseal P c r = .ok m := by
  obtain ⟨key, hkey⟩ : ∃ key, Asymmetric.keyExchange P esk (r.getPublicKey P) true = .ok key :=
    ⟨_, keyExchange_ok P esk (r.getPublicKey P) true hnd⟩
  have hkey2 : Asymmetric.keyExchange P r (esk.getPublicKey P) false = .ok key :=
    (keyExchange_symm P esk r true hpk).symm.trans hkey
  refine ⟨⟨(esk.getPublicKey P).bytes,
    P.kdf (SEAL_DOM ++ (esk.getPublicKey P).bytes ++ (r.getPublicKey P).bytes),
    (P.aeadEncrypt key.bytes
      (P.kdf (SEAL_DOM ++ (esk.getPublicKey P).bytes ++ (r.getPublicKey P).bytes)) [] m).1,
    (P.aeadEncrypt key.bytes
      (P.kdf (SEAL_DOM ++ (esk.getPublicKey P).bytes ++ (r.getPublicKey P).bytes)) [] m).2⟩,
    ?_, ?_⟩
  · simp [Asymmetric.seal, hkey]
  · have hdec : P.aeadDecrypt key.bytes
        (P.kdf (SEAL_DOM ++ (esk.getPublicKey P).bytes ++ (r.getPublicKey P).bytes))
        []
        (P.aeadEncrypt key.bytes
          (P.kdf (SEAL_DOM ++ (esk.getPublicKey P).bytes ++ (r.getPublicKey P).bytes)) [] m).1
        (P.aeadEncrypt key.bytes
          (P.kdf (SEAL_DOM ++ (esk.getPublicKey P).bytes ++ (r.getPublicKey P).bytes)) [] m).2
        = some m :=
      (P.aead_sound _ _ _ _ _ _).mpr rfl
    simp only [List.append_assoc] at hdec
    simp [Asymmetric.unseal, mkPk_roundtrip (esk.getPublicKey P), hkey2, hdec]

/-- C3 witness: a concrete seal and unseal round trip under the toy
primitives. -/
theorem c3_witness :
    ∃ c, Asymmetric.seal toyPrims kA [9] (kB.getPublicKey toyPrims) = .ok c ∧
      Asymmetric.unseal toyPrims c kB = .ok [9] :=
  c3_seal_unseal_roundtrip toyPrims [9] kA kB (by decide) (by decide)

/-- C4: for every message m and signer key pair S, verifying with S.pk a
signature produced by signing m with S.sk returns true. -/
theorem c4_sign_verify_roundtrip (P : Primitives) (m : Bytes)
    (sk : AsymmetricSecretKey) :
    Asymmetric.verify P m (sk.getPublicKey P) (.inl (Asymmetric.sign P m sk)) = .ok true := by
  simp [Asymmetric.verify, Asymmetric.sign, AsymmetricSecretKey.getPublicKey, P.verify_sign]

/-- C4 witness: a concrete sign and verify round trip. -/
theorem c4_witness :
    Asymmetric.verify toyPrims [3] (kA.getPublicKey toyPrims)
      (.inl (Asymmetric.sign toyPrims [3] kA)) = .ok true :=
  c4_sign_verify_roundtrip toyPrims [3] kA

/-- C6: over a non-degenerate key pair (the ecdh shared point is not
all-zero) and for a KDF that, like an ideal hash, never outputs the
all-zero string, the key exchange succeeds and its SymmetricKey output is
never the all-zero 32-byte value. -/
theorem c6_keyExchange_nonzero (P : Primitives) (a : AsymmetricSecretKey)
    (pk : AsymmetricPublicKey) (t : Bool)
    (hnd : allZero (P.ecdh a.bytes pk.bytes) = false)
    (hz : ∀ x, P.kdf x ≠ List.replicate 32 0) :
    ∃ k, Asymmetric.keyExchange P a pk t = .ok k ∧ k.bytes ≠ List.replicate 32 0 :=
  ⟨_, keyExchange_ok P a pk t hnd, hz _⟩

/-- C6 witness: a concrete non-zero key-exchange output. -/
theorem c6_witness :
    ∃ k, Asymmetric.keyExchange toyPrims kA (kB.getPublicKey toyPrims) true = .ok k ∧
      k.bytes ≠ List.replicate 32 0 :=
  c6_keyExchange_nonzero toyPrims kA (kB.getPublicKey toyPrims) true (by decide) toy_kdf_nz

/-- C7: getPublicKey is a deterministic pure function of the secret bytes:
any two secret keys holding the same bytes derive byte-identical public
keys (in particular, two calls on the same key agree). -/
theorem c7_getPublicKey_deterministic (P : Primitives) (a b : AsymmetricSecretKey)
    (h : a.bytes = b.bytes) :
    a.getPublicKey P = b.getPublicKey P := by
  cases a
  cases b
  cases h
  rfl

/-- C7 witness: two representations of the same secret bytes derive the
same public key. -/
theorem c7_witness : kA.getPublicKey toyPrims = kA2.getPublicKey toyPrims :=
  c7_getPublicKey_deterministic toyPrims kA kA2 rfl

/-- C8: verification given a well-formed Signature value never fails: it
returns the boolean verdict of the primitive, so a mismatching signature
yields false rather than an error; a malformed signature length instead
surfaces from the length-validating constructor as a SignatureLengthError,
and a correct length constructs the signature unchanged. -/
theorem c8_verify_error_semantics :
    (∀ (P : Primitives) (m : Bytes) (pk : AsymmetricPublicKey) (sig : Signature),
      Asymmetric.verify P m pk (.inl sig)
        = .ok (P.verifyPrim pk.bytes (P.kdf (SIG_DOM ++ m)) sig.bytes)) ∧
    (∀ (P : Primitives) (m : Bytes) (pk : AsymmetricPublicKey) (sig : Signature),
      P.verifyPrim pk.bytes (P.kdf (SIG_DOM ++ m)) sig.bytes = false →
      Asymmetric.verify P m pk (.inl sig) = .ok false) ∧
    (∀ b : Bytes, b.length ≠ 64 → Signature.mk? b = .error .SignatureLengthError) ∧
    (∀ (b : Bytes) (h : b.length = 64), Signature.mk? b = .ok ⟨b, h⟩) := by
  refine ⟨fun P m pk sig => rfl, fun P m pk sig hf => ?_, fun b hb => ?_, fun b h => ?_⟩
  · simp [Asymmetric.verify, hf]
  · simp only [Signature.mk?]
    rw [dif_neg hb]
  · simp only [Signature.mk?]
    rw [dif_pos h]

/-- C8 witness: a concrete mismatching signature verifies to false, and a
short buffer is rejected at construction. -/
theorem c8_witness :
    Asymmetric.verify toyPrims [1] (kA.getPublicKey toyPrims)
      (.inl ⟨List.replicate 64 5, by decide⟩) = .ok false ∧
    Signature.mk? [1, 2] = .error .SignatureLengthError :=
  ⟨c8_verify_error_semantics.2.1 toyPrims [1] (kA.getPublicKey toyPrims)
      ⟨List.replicate 64 5, by decide⟩ (by decide),
   c8_verify_error_semantics.2.2.1 [1, 2] (by decide)⟩

/-- C9: constructing a SecretKey, PublicKey or SymmetricKey from raw bytes
fails with InvalidKeyLength exactly when the buffer is not 32 bytes, and on
a 32-byte buffer succeeds wrapping the buffer unchanged, with no other
validation. -/
theorem c9_key_length_validation :
    (∀ (b : Bytes) (h : b.length = 32), AsymmetricSecretKey.mk? b = .ok ⟨b, h⟩) ∧
    (∀ b : Bytes, b.length ≠ 32 → AsymmetricSecretKey.mk? b = .error .InvalidKeyLength) ∧
    (∀ (b : Bytes) (h : b.length = 32), AsymmetricPublicKey.mk? b = .ok ⟨b, h⟩) ∧
    (∀ b : Bytes, b.length ≠ 32 → AsymmetricPublicKey.mk? b = .error .InvalidKeyLength) ∧
    (∀ (b : Bytes) (h : b.length = 32), SymmetricKey.mk? b = .ok ⟨b, h⟩) ∧
    (∀ b : Bytes, b.length ≠ 32 → SymmetricKey.mk? b = .error .InvalidKeyLength) := by
  refine ⟨fun b h => ?_, fun b hb => ?_, fun b h => ?_, fun b hb => ?_,
    fun b h => ?_, fun b hb => ?_⟩
  · simp only [AsymmetricSecretKey.mk?]
    rw [dif_pos h]
  · simp only [AsymmetricSecretKey.mk?]
    rw [dif_neg hb]
  · simp only [AsymmetricPublicKey.mk?]
    rw [dif_pos h]
  · simp only [AsymmetricPublicKey.mk?]
    rw [dif_neg hb]
  · simp only [SymmetricKey.mk?]
    rw [dif_pos h]
  · simp only [SymmetricKey.mk?]
    rw [dif_neg hb]

/-- C9 witness: a 32-byte buffer constructs a key wrapping those bytes, and
a 1-byte buffer is rejected with the size-mismatch error. -/
theorem c9_witness :
    AsymmetricSecretKey.mk? (List.replicate 32 7) = .ok ⟨List.replicate 32 7, by decide⟩ ∧
    SymmetricKey.mk? [3] = .error .InvalidKeyLength :=
  ⟨c9_key_length_validation.1 (List.replicate 32 7) (by decide),
   c9_key_length_validation.2.2.2.2.2 [3] (by decide)⟩

/-- C10: for a valid (message, signer public key, signature) triple, verify
returns true both on the Signature value itself and on its serialized
transport-encoded string form. -/
theorem c10_verify_transport_form (P : Primitives) (m : Bytes)
    (pk : AsymmetricPublicKey) (sig : Signature)
    (h : P.verifyPrim pk.bytes (P.kdf (SIG_DOM ++ m)) sig.bytes = true) :
    Asymmetric.verify P m pk (.inl sig) = .ok true ∧
    Asymmetric.verify P m pk (.inr (sigEncode sig.bytes)) = .ok true := by
  constructor
  · simp [Asymmetric.verify, h]
  · have hdec : Signature.mk? (sigDecode (sigEncode sig.bytes)) = .ok sig := by
      rw [sigDecode_sigEncode sig.bytes]
      simp only [Signature.mk?]
      rw [dif_pos sig.len]
    simp [Asymmetric.verify, hdec, h]

/-- C10 witness: a concrete signature accepted in transport-encoded form. -/
theorem c10_witness :
    Asymmetric.verify toyPrims [7] (kA.getPublicKey toyPrims)
      (.inr (sigEncode (Asymmetric.sign toyPrims [7] kA).bytes)) = .ok true :=
  (c10_verify_transport_form toyPrims [7] (kA.getPublicKey toyPrims)
    (Asymmetric.sign toyPrims [7] kA) (by decide)).2

/-- C5: for an idealized collision-free AEAD (ciphertext and tag each
determine the message under a fixed key, nonce and associated data),
flipping any single bit of the ciphertext or tag of an honestly produced
Encrypted Message or Sealed Message makes decrypt, respectively unseal,
fail with AuthenticationError, never returning any plaintext. -/
theorem c5_tamper_detection :
    (∀ (P : Primitives) (nonce m : Bytes) (a b : AsymmetricSecretKey)
      (c : EncryptedMessage) (tgt : Bool) (i k : Nat),
      P.scalarMultBase a.bytes ≠ P.scalarMultBase b.bytes →
      allZero (P.ecdh a.bytes (b.getPublicKey P).bytes) = false →
      (∀ ky nn aa m1 m2, (P.aeadEncrypt ky nn aa m1).1 = (P.aeadEncrypt ky nn aa m2).1 → m1 = m2) →
      (∀ ky nn aa m1 m2, (P.aeadEncrypt ky nn aa m1).2 = (P.aeadEncrypt ky nn aa m2).2 → m1 = m2) →
      Asymmetric.encrypt P nonce m (b.getPublicKey P) a = .ok c →
      i < (if tgt then c.ct else c.tag).length →
      Asymmetric.decrypt P
        (if tgt then { c with ct := flipBit c.ct i k } else { c with tag := flipBit c.tag i k })
        b (a.getPublicKey P) = .error .AuthenticationError) ∧
    (∀ (P : Primitives) (m : Bytes) (esk r : AsymmetricSecretKey)
      (c : SealedMessage) (tgt : Bool) (i k : Nat),
      P.scalarMultBase esk.bytes ≠ P.scalarMultBase r.bytes →
      allZero (P.ecdh esk.bytes (r.getPublicKey P).bytes) = false →
      (∀ ky nn aa m1 m2, (P.aeadEncrypt ky nn aa m1).1 = (P.aeadEncrypt ky nn aa m2).1 → m1 = m2) →
      (∀ ky nn aa m1 m2, (P.aeadEncrypt ky nn aa m1).2 = (P.aeadEncrypt ky nn aa m2).2 → m1 = m2) →
      Asymmetric.seal P esk m (r.getPublicKey P) = .ok c →
      i < (if tgt then c.ct else c.tag).length →
      Asymmetric.unseal P
        (if tgt then { c with ct := flipBit c.ct i k } else { c with tag := flipBit c.tag i k })
        r = .error .AuthenticationError) := by
  constructor
  · intro P nonce m a b c tgt i k hpk hnd hct htag ho hi
    obtain ⟨key, hkey⟩ : ∃ key, Asymmetric.keyExchange P a (b.getPublicKey P) true = .ok key :=
      ⟨_, keyExchange_ok P a (b.getPublicKey P) true hnd⟩
    have hkey2 : Asymmetric.keyExchange P b (a.getPublicKey P) false = .ok key :=
      (keyExchange_symm P a b true hpk).symm.trans hkey
    simp only [Asymmetric.encrypt, hkey, Except.ok.injEq] at ho
    subst ho
    cases tgt
    case false =>
      simp [Asymmetric.decrypt, hkey2]
      cases hd : P.aeadDecrypt key.bytes nonce HEADER
          (P.aeadEncrypt key.bytes nonce HEADER m).1
          (flipBit (P.aeadEncrypt key.bytes nonce HEADER m).2 i k) with
      | none => simp [hd]
      | some m2 =>
        exfalso
        have henc := (P.aead_sound _ _ _ _ _ _).mp hd
        have hf := congrArg Prod.fst henc
        have hs := congrArg Prod.snd henc
        have h1 : (P.aeadEncrypt key.bytes nonce HEADER m2).1
            = (P.aeadEncrypt key.bytes nonce HEADER m).1 := hf
        have h2 : (P.aeadEncrypt key.bytes nonce HEADER m2).2
            = flipBit (P.aeadEncrypt key.bytes nonce HEADER m).2 i k := hs
        have hm : m2 = m := hct _ _ _ _ _ h1
        subst hm
        exact flipBit_ne _ i k hi h2.symm
    case true =>
      simp [Asymmetric.decrypt, hkey2]
      cases hd : P.aeadDecrypt key.bytes nonce HEADER
          (flipBit (P.aeadEncrypt key.bytes nonce HEADER m).1 i k)
          (P.aeadEncrypt key.bytes nonce HEADER m).2 with
      | none => simp [hd]
      | some m2 =>
        exfalso
        have henc := (P.aead_sound _ _ _ _ _ _).mp hd
        have hf := congrArg Prod.fst henc
        have hs := congrArg Prod.snd henc
        have h1 : (P.aeadEncrypt key.bytes nonce HEADER m2).1
            = flipBit (P.aeadEncrypt key.bytes nonce HEADER m).1 i k := hf
        have h2 : (P.aeadEncrypt key.bytes nonce HEADER m2).2
            = (P.aeadEncrypt key.bytes nonce HEADER m).2 := hs
        have hm : m2 = m := htag _ _ _ _ _ h2
        subst hm
        exact flipBit_ne _ i k hi h1.symm
  · intro P m esk r c tgt i k hpk hnd hct htag ho hi
    obtain ⟨key, hkey⟩ : ∃ key, Asymmetric.keyExchange P esk (r.getPublicKey P) true = .ok key :=
      ⟨_, keyExchange_ok P esk (r.getPublicKey P) true hnd⟩
    have hkey2 : Asymmetric.keyExchange P r (esk.getPublicKey P) false = .ok key :=
      (keyExchange_symm P esk r true hpk).symm.trans hkey
    simp only [Asymmetric.seal, hkey, Except.ok.injEq] at ho
    subst ho
    cases tgt
    case false =>
      simp [Asymmetric.unseal, mkPk_roundtrip (esk.getPublicKey P), hkey2]
      cases hd : P.aeadDecrypt key.bytes
          (P.kdf (SEAL_DOM ++ ((esk.getPublicKey P).bytes ++ (r.getPublicKey P).bytes))) []
          (P.aeadEncrypt key.bytes
            (P.kdf (SEAL_DOM ++ ((esk.getPublicKey P).bytes ++ (r.getPublicKey P).bytes))) [] m).1
          (flipBit (P.aeadEncrypt key.bytes
            (P.kdf (SEAL_DOM ++ ((esk.getPublicKey P).bytes ++ (r.getPublicKey P).bytes))) [] m).2 i k) with
      | none => simp [hd]
      | some m2 =>
        exfalso
        have henc := (P.aead_sound _ _ _ _ _ _).mp hd
        have hf := congrArg Prod.fst henc
        have hs := congrArg Prod.snd henc
        have h1 : (P.aeadEncrypt key.bytes
              (P.kdf (SEAL_DOM ++ ((esk.getPublicKey P).bytes ++ (r.getPublicKey P).bytes))) [] m2).1
            = (P.aeadEncrypt key.bytes
              (P.kdf (SEAL_DOM ++ ((esk.getPublicKey P).bytes ++ (r.getPublicKey P).bytes))) [] m).1 := hf
        have h2 : (P.aeadEncrypt key.bytes
              (P.kdf (SEAL_DOM ++ ((esk.getPublicKey P).bytes ++ (r.getPublicKey P).bytes))) [] m2).2
            = flipBit (P.aeadEncrypt key.bytes
              (P.kdf (SEAL_DOM ++ ((esk.getPublicKey P).bytes ++ (r.getPublicKey P).bytes))) [] m).2 i k := hs
        have hm : m2 = m := hct _ _ _ _ _ h1
        subst hm
        exact flipBit_ne _ i k hi h2.symm
    case true =>
      simp [Asymmetric.unseal, mkPk_roundtrip (esk.getPublicKey P), hkey2]
      cases hd : P.aeadDecrypt key.bytes
          (P.kdf (SEAL_DOM ++ ((esk.getPublicKey P).bytes ++ (r.getPublicKey P).bytes))) []
          (flipBit (P.aeadEncrypt key.bytes
            (P.kdf (SEAL_DOM ++ ((esk.getPublicKey P).bytes ++ (r.getPublicKey P).bytes))) [] m).1 i k)
          (P.aeadEncrypt key.bytes
            (P.kdf (SEAL_DOM ++ ((esk.getPublicKey P).bytes ++ (r.getPublicKey P).bytes))) [] m).2 with
      | none => simp [hd]
      | some m2 =>
        exfalso
        have henc := (P.aead_sound _ _ _ _ _ _).mp hd
        have hf := congrArg Prod.fst henc
        have hs := congrArg Prod.snd henc
        have h1 : (P.aeadEncrypt key.bytes
              (P.kdf (SEAL_DOM ++ ((esk.getPublicKey P).bytes ++ (r.getPublicKey P).bytes))) [] m2).1
            = flipBit (P.aeadEncrypt key.bytes
              (P.kdf (SEAL_DOM ++ ((esk.getPublicKey P).bytes ++ (r.getPublicKey P).bytes))) [] m).1 i k := hf
        have h2 : (P.aeadEncrypt key.bytes
              (P.kdf (SEAL_DOM ++ ((esk.getPublicKey P).bytes ++ (r.getPublicKey P).bytes))) [] m2).2
            = (P.aeadEncrypt key.bytes
              (P.kdf (SEAL_DOM ++ ((esk.getPublicKey P).bytes ++ (r.getPublicKey P).bytes))) [] m).2 := hs
        have hm : m2 = m := htag _ _ _ _ _ h2
        subst hm
        exact flipBit_ne _ i k hi h1.symm

/-- C5 witness: a concrete single-bit flip in a ciphertext and one in a tag
are each rejected with AuthenticationError under the toy primitives. -/
theorem c5_witness :
    Asymmetric.decrypt toyPrims ⟨HEADER, [], [6], [200]⟩ kB (kA.getPublicKey toyPrims)
      = .error .AuthenticationError ∧
    Asymmetric.unseal toyPrims
      ⟨2 :: List.replicate 31 0, 1 :: List.replicate 31 0, [10], [10]⟩ kB
      = .error .AuthenticationError :=
  ⟨c5_tamper_detection.1 toyPrims [] [5] kA kB ⟨HEADER, [], [7], [200]⟩ true 0 0
      (by decide) (by decide) toy_ct_inj toy_tag_inj rfl (by decide),
   c5_tamper_detection.2 toyPrims [9] kA kB
      ⟨2 :: List.replicate 31 0, 1 :: List.replicate 31 0, [10], [8]⟩ false 0 1
      (by decide) (by decide) toy_ct_inj toy_tag_inj rfl (by decide)⟩
